import Mathlib

/-!
Verification of the RAG subsystem: chunking, cosine similarity, top-K
retrieval, the in-memory document store, the retrieval orchestrator and
the context formatter.  Shallow embedding: JS strings are `List Char`
(for the chunker) or `String` (for identifiers and formatting), JS
numbers are `ℝ`, throwing functions return `Except`, and the JS `Map`
backing the store is an association list with `Map.set`/`Map.delete`
semantics.
-/

namespace RAG

/-- JS `\s` test on a character (whitespace class used by `split(/\s+/)`,
`trim`). -/
def ws (c : Char) : Bool := c.isWhitespace

/-- Left part of JS `String.prototype.trim`: drop leading whitespace. -/
def trimLeft (l : List Char) : List Char := l.dropWhile ws

/-- Right part of JS `String.prototype.trim`: drop trailing whitespace. -/
def trimRight (l : List Char) : List Char := (l.reverse.dropWhile ws).reverse

/-- JS `String.prototype.trim`. -/
def trim (l : List Char) : List Char := trimLeft (trimRight l)

/-- The maximal non-whitespace runs of a string, in order. -/
def wordsRuns : List Char → List (List Char)
  | [] => []
  | c :: cs =>
    if ws c then wordsRuns cs
    else (c :: cs.takeWhile (fun x => !(ws x))) :: wordsRuns (cs.dropWhile (fun x => !(ws x)))
termination_by l => l.length
decreasing_by
  · simp only [List.length_cons]
    exact Nat.lt_succ_of_le (Nat.le_refl _)
  · simp only [List.length_cons]
    exact Nat.lt_succ_of_le (List.dropWhile_sublist _).length_le

/-- JS `text.split(/\s+/)`: the non-whitespace runs, plus an empty piece
at the front when the string starts with whitespace, an empty piece at
the back when it ends with whitespace, and `[""]` for the empty string. -/
def jsSplitWs (s : List Char) : List (List Char) :=
  if s.isEmpty then [[]]
  else
    (if ws (s.headD ' ') then [([] : List Char)] else [])
      ++ wordsRuns s
      ++ (if ws (s.getLastD ' ') then [([] : List Char)] else [])

/-- One iteration of the word-accumulation loop of `chunkText`
(state: chunks pushed so far, current buffer). -/
def chunkStep (maxChunkSize : Int) (st : List (List Char) × List Char)
    (word : List Char) : List (List Char) × List Char :=
  if (st.2.length : Int) + word.length + 1 > maxChunkSize ∧ st.2.length > 0 then
    (st.1 ++ [trim st.2], word)
  else
    (st.1, st.2 ++ (if st.2.length > 0 then ' ' :: word else word))

/-- Final flush of the loop of `chunkText`. -/
def finalChunks (st : List (List Char) × List Char) : List (List Char) :=
  if st.2.length > 0 then st.1 ++ [trim st.2] else st.1

/-- `chunkText` from `src/lib/pdf/rag.ts` (utils): split on whitespace
runs, accumulate words into buffers of at most `maxChunkSize` characters
(a buffer is flushed when appending the next word would overflow it and
it is non-empty), flush the remainder, drop empty chunks.
`minChunkSize` is accepted but never read. -/
def chunkText (text : List Char) (minChunkSize maxChunkSize : Int) : List (List Char) :=
  let words := jsSplitWs text
  let st := words.foldl (chunkStep maxChunkSize) ([], [])
  (finalChunks st).filter (fun c => c.length > 0)

/-- A word: non-empty and free of whitespace. -/
def isWord (w : List Char) : Prop := w ≠ [] ∧ ∀ c ∈ w, ws c = false

/-- Join strings with single spaces (JS `arr.join(" ")` shape). -/
def joinWords : List (List Char) → List Char
  | [] => []
  | [w] => w
  | w :: rest => w ++ ' ' :: joinWords rest

/-- The whitespace-normalized form of a text: its words joined by single
spaces. -/
def normalizeWs (text : List Char) : List Char := joinWords (wordsRuns text)

/-- Error raised by `cosineSimilarity` ("Vectors must have the same
length"). -/
inductive SimError where
  | dimensionMismatch
deriving DecidableEq

/-- Sum of squares of a vector (the magnitude accumulation loops). -/
def sumSq (v : List ℝ) : ℝ := (v.map (fun x => x * x)).sum

/-- The dot-product accumulation loop of `cosineSimilarity`. -/
def dotProd (a b : List ℝ) : ℝ := (List.zipWith (fun x y => x * y) a b).sum

/-- Euclidean magnitude of a vector. -/
noncomputable def magnitude (v : List ℝ) : ℝ := Real.sqrt (sumSq v)

/-- `cosineSimilarity` from `src/lib/pdf/rag.ts` (utils): throws on a
length mismatch, returns `0` for empty vectors and for a zero magnitude
on either side, and otherwise the normalized dot product. -/
noncomputable def cosineSimilarity (vectorA vectorB : List ℝ) : Except SimError ℝ :=
  if vectorA.length ≠ vectorB.length then Except.error SimError.dimensionMismatch
  else if vectorA.length = 0 then Except.ok 0
  else if magnitude vectorA = 0 ∨ magnitude vectorB = 0 then Except.ok 0
  else Except.ok (dotProd vectorA vectorB / (magnitude vectorA * magnitude vectorB))

/-- A stored chunk: id, text, embedding. -/
structure PDFChunk where
  id : String
  text : String
  embedding : List ℝ

/-- A scored chunk as produced by `findSimilarChunks`. -/
structure SimilarChunk where
  id : String
  text : String
  similarity : ℝ

/-- JS `Array.prototype.map` with a callback that can throw: the first
exception propagates. -/
def mapExcept (f : α → Except ε β) : List α → Except ε (List β)
  | [] => Except.ok []
  | a :: as =>
    match f a with
    | Except.error e => Except.error e
    | Except.ok b => (mapExcept f as).map (fun bs => b :: bs)

/-- JS `arr.slice(0, e)`: a negative `e` counts from the end of the
array. -/
def jsSlice (l : List α) (e : Int) : List α :=
  l.take (if e < 0 then ((l.length : Int) + e).toNat else e.toNat)

/-- The comparator `(a, b) => b.similarity - a.similarity` of
`findSimilarChunks`, as the `le` relation of the (stable) JS sort. -/
noncomputable def simLE (a b : SimilarChunk) : Bool := decide (b.similarity ≤ a.similarity)

/-- The per-chunk scoring step of `findSimilarChunks`. -/
noncomputable def simOf (queryEmbedding : List ℝ) (chunk : PDFChunk) :
    Except SimError SimilarChunk :=
  (cosineSimilarity queryEmbedding chunk.embedding).map
    (fun s => ⟨chunk.id, chunk.text, s⟩)

/-- `findSimilarChunks` from `src/lib/pdf/rag.ts` (utils): score every
chunk against the query embedding (a similarity error propagates), sort
by descending similarity with JS's stable sort, `slice(0, topK)`. -/
noncomputable def findSimilarChunks (queryEmbedding : List ℝ)
    (chunkEmbeddings : List PDFChunk) (topK : Int) :
    Except SimError (List SimilarChunk) :=
  (mapExcept (simOf queryEmbedding) chunkEmbeddings).map
    (fun similarities => jsSlice (similarities.mergeSort simLE) topK)

/-- A stored document. `createdAt` is the `Date` captured at store
time, modelled as the clock value passed in. -/
structure PDFDocument where
  id : String
  filename : String
  chunks : List PDFChunk
  createdAt : Nat

/-- The in-memory store: the backing JS `Map` as an insertion-ordered
association list. -/
structure PDFStorage where
  documents : List (String × PDFDocument)

/-- JS `Map.prototype.set`: replace in place when the key exists,
append otherwise. -/
def mapSet (m : List (String × PDFDocument)) (k : String) (v : PDFDocument) :
    List (String × PDFDocument) :=
  if m.any (fun p => p.1 == k) then
    m.map (fun p => if p.1 == k then (k, v) else p)
  else m ++ [(k, v)]

/-- `PDFStorage.storeDocument`: build the record, `set` it, return it. -/
def storeDocument (s : PDFStorage) (documentId filename : String)
    (chunks : List PDFChunk) (now : Nat) : PDFStorage × PDFDocument :=
  let document : PDFDocument := ⟨documentId, filename, chunks, now⟩
  (⟨mapSet s.documents documentId document⟩, document)

/-- `PDFStorage.getDocument`: JS `Map.prototype.get`. -/
def getDocument (s : PDFStorage) (documentId : String) : Option PDFDocument :=
  (s.documents.find? (fun p => p.1 == documentId)).map (fun p => p.2)

/-- `PDFStorage.deleteDocument`: JS `Map.prototype.delete`, returning
whether an entry existed and was removed. -/
def deleteDocument (s : PDFStorage) (documentId : String) : PDFStorage × Bool :=
  (⟨s.documents.filter (fun p => !(p.1 == documentId))⟩,
    s.documents.any (fun p => p.1 == documentId))

/-- Failure of the external embedding provider (the awaited `embed`
call throwing). -/
inductive EmbedError where
  | providerFailure
deriving DecidableEq

/-- The transient retrieval result of `getRAGContext`. -/
structure RAGContext where
  documentId : String
  filename : String
  relevantChunks : List (String × ℝ)

/-- `getRAGContext` from `src/lib/pdf/rag.ts`: look the document up
(absent → `null`), refuse documents with zero chunks (→ `null`), embed
the query via the external provider, rank the chunks with
`findSimilarChunks` under the `min(topK, 10)` clamp, and package the
result; the surrounding `try/catch` converts any thrown error (provider
failure, similarity error) into `null`. -/
noncomputable def getRAGContext (store : PDFStorage)
    (embedProvider : String → Except EmbedError (List ℝ))
    (query documentId : String) (topK : Int) : Option RAGContext :=
  match getDocument store documentId with
  | none => none
  | some document =>
    if document.chunks.length = 0 then none
    else
      match embedProvider query with
      | Except.error _ => none
      | Except.ok queryEmbedding =>
        match findSimilarChunks queryEmbedding document.chunks (min topK 10) with
        | Except.error _ => none
        | Except.ok similarChunks =>
          some ⟨documentId, document.filename,
            similarChunks.map (fun c => (c.text, c.similarity))⟩

/-- `formatRAGContext` from `src/lib/pdf/rag.ts`: empty string for an
absent context or one with no relevant chunks, otherwise the fixed
template around the chunk texts joined by blank lines. -/
def formatRAGContext (ragContext : Option RAGContext) : String :=
  match ragContext with
  | none => ""
  | some ctx =>
    if ctx.relevantChunks.length = 0 then ""
    else
      "Use the following PDF context (from \"" ++ ctx.filename
        ++ "\") to answer the user's question accurately:\n\n<pdf_context>\n"
        ++ String.intercalate "\n\n" (ctx.relevantChunks.map (fun c => c.1))
        ++ "\n</pdf_context>\n\n"

end RAG

namespace RAG

theorem sumSq_nil : sumSq [] = 0 := rfl

theorem sumSq_cons (a : ℝ) (l : List ℝ) : sumSq (a :: l) = a * a + sumSq l := by
  simp [sumSq]

theorem sumSq_nonneg (v : List ℝ) : 0 ≤ sumSq v := by
  induction v with
  | nil => simp [sumSq]
  | cons a l ih =>
    rw [sumSq_cons]
    exact add_nonneg (mul_self_nonneg a) ih

theorem sumSq_pos (v : List ℝ) (hv : ∃ x ∈ v, x ≠ 0) : 0 < sumSq v := by
  obtain ⟨x, hx, hx0⟩ := hv
  induction v with
  | nil => simp at hx
  | cons a l ih =>
    rw [sumSq_cons]
    rcases List.mem_cons.mp hx with h | h
    · subst h
      have := mul_self_pos.mpr hx0
      have := sumSq_nonneg l
      linarith
    · have := ih h
      have := mul_self_nonneg a
      linarith

theorem dotProd_self (v : List ℝ) : dotProd v v = sumSq v := by
  induction v with
  | nil => rfl
  | cons a l ih =>
    simp only [dotProd, List.zipWith_cons_cons, List.sum_cons] at ih ⊢
    simp only [sumSq, List.map_cons, List.sum_cons]
    rw [ih]
    simp [sumSq]

theorem sumSq_neg (v : List ℝ) : sumSq (v.map (fun x => -x)) = sumSq v := by
  induction v with
  | nil => rfl
  | cons a l ih =>
    simp only [List.map_cons, sumSq_cons, ih]
    ring_nf

theorem dotProd_neg (v : List ℝ) : dotProd v (v.map (fun x => -x)) = -sumSq v := by
  induction v with
  | nil => simp [dotProd, sumSq]
  | cons a l ih =>
    simp only [List.map_cons, dotProd, List.zipWith_cons_cons, List.sum_cons] at ih ⊢
    rw [ih, sumSq_cons]
    ring

theorem magnitude_eq_zero (v : List ℝ) : magnitude v = 0 ↔ sumSq v = 0 := by
  rw [magnitude, Real.sqrt_eq_zero (sumSq_nonneg v)]

theorem magnitude_ne_zero (v : List ℝ) (hv : ∃ x ∈ v, x ≠ 0) : magnitude v ≠ 0 :=
  ne_of_gt (Real.sqrt_pos.mpr (sumSq_pos v hv))

theorem mul_self_magnitude (v : List ℝ) : magnitude v * magnitude v = sumSq v :=
  Real.mul_self_sqrt (sumSq_nonneg v)

/-- Direct evaluation of `cosineSimilarity` on the one-component vector
`[1]` against itself (used to instantiate several theorems). -/
theorem cosSim_single_one : cosineSimilarity [(1 : ℝ)] [(1 : ℝ)] = Except.ok 1 := by
  have h1 : sumSq [(1 : ℝ)] = 1 := by simp [sumSq]
  have hm : magnitude [(1 : ℝ)] = 1 := by rw [magnitude, h1, Real.sqrt_one]
  have hd : dotProd [(1 : ℝ)] [(1 : ℝ)] = 1 := by simp [dotProd]
  simp [cosineSimilarity, hm, hd]

/-- C5: `cosineSimilarity` raises `DimensionMismatch` exactly when the
two vectors have different lengths; for equal-length inputs it never
raises, and it returns `0` (a defined value, not an error) whenever the
input is empty or either magnitude is zero. -/
theorem C5_cosineSimilarity_error_behavior (a b : List ℝ) :
    ((∃ e, cosineSimilarity a b = Except.error e) ↔ a.length ≠ b.length)
    ∧ (a.length = b.length →
        (a = [] ∨ magnitude a = 0 ∨ magnitude b = 0) →
        cosineSimilarity a b = Except.ok 0) := by
  constructor
  · constructor
    · rintro ⟨e, he⟩
      intro hlen
      rw [cosineSimilarity, if_neg (by simpa using hlen)] at he
      split at he
      · exact Except.noConfusion he
      · split at he
        · exact Except.noConfusion he
        · exact Except.noConfusion he
    · intro h
      exact ⟨SimError.dimensionMismatch, by rw [cosineSimilarity, if_pos h]⟩
  · intro hlen hz
    rw [cosineSimilarity, if_neg (by simpa using hlen)]
    by_cases h0 : a.length = 0
    · rw [if_pos h0]
    · rw [if_neg h0]
      rcases hz with h | h
      · exact absurd (by simp [h]) h0
      · rw [if_pos h]

/-- C5 witness: at `a = [0]`, `b = [0]` the zero-magnitude fallback
returns `0`, and at `a = [1]`, `b = []` the mismatch raises. -/
theorem C5_witness :
    cosineSimilarity [(0 : ℝ)] [(0 : ℝ)] = Except.ok 0
    ∧ (∃ e, cosineSimilarity [(1 : ℝ)] ([] : List ℝ) = Except.error e) :=
  ⟨(C5_cosineSimilarity_error_behavior [(0 : ℝ)] [(0 : ℝ)]).2 rfl
      (Or.inr (Or.inl (by rw [magnitude]; simp [sumSq]))),
   (C5_cosineSimilarity_error_behavior [(1 : ℝ)] []).1.mpr (by simp)⟩

/-- C6: on any non-zero vector `v`, `cosineSimilarity v v = 1` and
`cosineSimilarity v (-v) = -1`; any equal-length pair with zero dot
product gets similarity `0`. -/
theorem C6_cosineSimilarity_algebra (v : List ℝ) (hv : ∃ x ∈ v, x ≠ 0) :
    cosineSimilarity v v = Except.ok 1
    ∧ cosineSimilarity v (v.map (fun x => -x)) = Except.ok (-1)
    ∧ ∀ u w : List ℝ, u.length = w.length → dotProd u w = 0 →
        cosineSimilarity u w = Except.ok 0 := by
  have hS : 0 < sumSq v := sumSq_pos v hv
  have hmag : magnitude v ≠ 0 := magnitude_ne_zero v hv
  have hne : v ≠ [] := by
    rintro rfl
    obtain ⟨x, hx, _⟩ := hv
    simp at hx
  have hlen0 : ¬v.length = 0 := by simpa [List.length_eq_zero] using hne
  refine ⟨?_, ?_, ?_⟩
  · rw [cosineSimilarity, if_neg (by simp), if_neg hlen0,
      if_neg (by simp [hmag]), dotProd_self, mul_self_magnitude]
    rw [div_self (ne_of_gt hS)]
  · have hmagn : magnitude (v.map (fun x => -x)) = magnitude v := by
      rw [magnitude, magnitude, sumSq_neg]
    rw [cosineSimilarity, if_neg (by simp), if_neg hlen0, hmagn,
      if_neg (by simp [hmag]), dotProd_neg, mul_self_magnitude]
    rw [neg_div, div_self (ne_of_gt hS)]
  · intro u w hlen hdot
    rw [cosineSimilarity, if_neg (by simpa using hlen)]
    by_cases h0 : u.length = 0
    · rw [if_pos h0]
    · rw [if_neg h0]
      by_cases hm : magnitude u = 0 ∨ magnitude w = 0
      · rw [if_pos hm]
      · rw [if_neg hm, hdot, zero_div]

/-- C6 witness at the concrete non-zero vector `[1]`. -/
theorem C6_witness :
    cosineSimilarity [(1 : ℝ)] [(1 : ℝ)] = Except.ok 1
    ∧ cosineSimilarity [(1 : ℝ)] ([(1 : ℝ)].map (fun x => -x)) = Except.ok (-1)
    ∧ ∀ u w : List ℝ, u.length = w.length → dotProd u w = 0 →
        cosineSimilarity u w = Except.ok 0 :=
  C6_cosineSimilarity_algebra [(1 : ℝ)] ⟨1, by simp, one_ne_zero⟩

theorem find?_cons_pos (p : α → Bool) (a : α) (l : List α) (h : p a = true) :
    List.find? p (a :: l) = some a := List.find?_cons_of_pos l h

theorem find?_cons_neg (p : α → Bool) (a : α) (l : List α) (h : p a = false) :
    List.find? p (a :: l) = List.find? p l :=
  List.find?_cons_of_neg l (by simp [h])

theorem find?_map_replace (m : List (String × PDFDocument)) (k : String)
    (v : PDFDocument) (hm : m.any (fun p => p.1 == k) = true) :
    (m.map (fun p => if p.1 == k then (k, v) else p)).find? (fun p => p.1 == k)
      = some (k, v) := by
  induction m with
  | nil => simp at hm
  | cons a t ih =>
    by_cases ha : (a.1 == k) = true
    · simp only [List.map_cons, if_pos ha]
      exact List.find?_cons_of_pos _ (by simp)
    · have ht : t.any (fun p => p.1 == k) = true := by
        simpa [List.any_cons, ha] using hm
      simp only [List.map_cons, if_neg ha]
      rw [List.find?_cons_of_neg _ (by simpa using ha)]
      exact ih ht

theorem find?_map_of_ne (m : List (String × PDFDocument)) (k k' : String)
    (v : PDFDocument) (h : k ≠ k') :
    (m.map (fun p => if p.1 == k then (k, v) else p)).find? (fun p => p.1 == k')
      = m.find? (fun p => p.1 == k') := by
  induction m with
  | nil => rfl
  | cons a t ih =>
    by_cases ha : (a.1 == k) = true
    · have hak : a.1 = k := by simpa using ha
      have h1 : ((k, v).1 == k') = false := by simpa using h
      have h2 : (a.1 == k') = false := by simpa [hak] using h
      simp only [List.map_cons, if_pos ha]
      rw [find?_cons_neg (fun p : String × PDFDocument => p.1 == k') _ _ h1,
        find?_cons_neg (fun p : String × PDFDocument => p.1 == k') _ _ h2]
      exact ih
    · simp only [List.map_cons, if_neg ha]
      by_cases hk' : (a.1 == k') = true
      · rw [find?_cons_pos (fun p : String × PDFDocument => p.1 == k') _ _ hk',
          find?_cons_pos (fun p : String × PDFDocument => p.1 == k') _ _ hk']
      · have hk2 : (a.1 == k') = false := by simpa using hk'
        rw [find?_cons_neg (fun p : String × PDFDocument => p.1 == k') _ _ hk2,
          find?_cons_neg (fun p : String × PDFDocument => p.1 == k') _ _ hk2]
        exact ih

theorem find?_filter_ne (m : List (String × PDFDocument)) (k k' : String)
    (h : k ≠ k') :
    (m.filter (fun p => !(p.1 == k))).find? (fun p => p.1 == k')
      = m.find? (fun p => p.1 == k') := by
  induction m with
  | nil => rfl
  | cons a t ih =>
    by_cases hk : (a.1 == k) = true
    · have hak : a.1 = k := by simpa using hk
      have h2 : (a.1 == k') = false := by simpa [hak] using h
      simp only [List.filter_cons, hk]
      rw [find?_cons_neg (fun p : String × PDFDocument => p.1 == k') _ _ h2]
      simpa using ih
    · have hkeep : (!(a.1 == k)) = true := by simpa using hk
      by_cases hk' : (a.1 == k') = true
      · simp only [List.filter_cons, hkeep, if_pos]
        rw [find?_cons_pos (fun p : String × PDFDocument => p.1 == k') _ _ hk',
          find?_cons_pos (fun p : String × PDFDocument => p.1 == k') _ _ hk']
      · have hk2 : (a.1 == k') = false := by simpa using hk'
        simp only [List.filter_cons, hkeep, if_pos]
        rw [find?_cons_neg (fun p : String × PDFDocument => p.1 == k') _ _ hk2,
          find?_cons_neg (fun p : String × PDFDocument => p.1 == k') _ _ hk2]
        exact ih

theorem find?_mapSet_self (m : List (String × PDFDocument)) (k : String)
    (v : PDFDocument) :
    (mapSet m k v).find? (fun p => p.1 == k) = some (k, v) := by
  by_cases h : m.any (fun p => p.1 == k) = true
  · rw [mapSet, if_pos h]
    exact find?_map_replace m k v h
  · rw [mapSet, if_neg h]
    have hnone : m.find? (fun p => p.1 == k) = none := by
      rw [List.find?_eq_none]
      intro x hx hxk
      exact h (List.any_eq_true.mpr ⟨x, hx, hxk⟩)
    rw [List.find?_append, hnone]
    simp

/-- C7: storing a document then looking it up by id returns exactly the
stored record (same chunk ids, texts and embeddings, in order); deleting
then looking up returns absent; and `deleteDocument` reports `true`
exactly when an entry for the id existed. -/
theorem C7_storage_roundtrip (s : PDFStorage) (documentId filename : String)
    (chunks : List PDFChunk) (now : Nat) :
    getDocument (storeDocument s documentId filename chunks now).1 documentId
      = some ⟨documentId, filename, chunks, now⟩
    ∧ getDocument (deleteDocument s documentId).1 documentId = none
    ∧ ((deleteDocument s documentId).2 = true ↔ (getDocument s documentId).isSome) := by
  refine ⟨?_, ?_, ?_⟩
  · simp only [getDocument, storeDocument]
    rw [find?_mapSet_self]
    rfl
  · simp only [getDocument, deleteDocument]
    rw [List.find?_eq_none.mpr]
    · rfl
    · intro x hx hxk
      have := (List.mem_filter.mp hx).2
      rw [hxk] at this
      simp at this
  · simp only [getDocument, deleteDocument, Option.isSome_map']
    rw [List.any_eq_true]
    constructor
    · rintro ⟨x, hx, hxk⟩
      exact List.find?_isSome.mpr ⟨x, hx, hxk⟩
    · intro hsome
      exact List.find?_isSome.mp hsome

/-- C10: the store operations are local to their key: storing or
deleting under `id` leaves `getDocument` at any other id unchanged. -/
theorem C10_storage_frame (s : PDFStorage) (id id' filename : String)
    (chunks : List PDFChunk) (now : Nat) (h : id ≠ id') :
    getDocument (storeDocument s id filename chunks now).1 id' = getDocument s id'
    ∧ getDocument (deleteDocument s id).1 id' = getDocument s id' := by
  constructor
  · simp only [getDocument, storeDocument, mapSet]
    by_cases hm : s.documents.any (fun p => p.1 == id) = true
    · rw [if_pos hm, find?_map_of_ne _ _ _ _ h]
    · rw [if_neg hm, List.find?_append]
      have hone : List.find? (fun p => p.1 == id')
          [(id, (⟨id, filename, chunks, now⟩ : PDFDocument))] = none := by
        rw [List.find?_eq_none]
        intro x hx hxk
        simp only [List.mem_singleton] at hx
        rw [hx] at hxk
        exact h (by simpa using hxk)
      rw [hone, Option.or_none]
  · simp only [getDocument, deleteDocument]
    rw [find?_filter_ne _ _ _ h]

/-- C10 witness at the empty store with the distinct ids "a" and "b". -/
theorem C10_witness :
    getDocument (storeDocument (⟨[]⟩ : PDFStorage) "a" "f" [] 0).1 "b"
        = getDocument (⟨[]⟩ : PDFStorage) "b"
    ∧ getDocument (deleteDocument (⟨[]⟩ : PDFStorage) "a").1 "b"
        = getDocument (⟨[]⟩ : PDFStorage) "b" :=
  C10_storage_frame ⟨[]⟩ "a" "b" "f" [] 0 (by decide)

/-- C7 witness at a concrete store, id, filename and chunk list. -/
theorem C7_witness :
    getDocument (storeDocument (⟨[]⟩ : PDFStorage) "a" "f" [] 0).1 "a"
        = some ⟨"a", "f", [], 0⟩
    ∧ getDocument (deleteDocument (⟨[]⟩ : PDFStorage) "a").1 "a" = none
    ∧ ((deleteDocument (⟨[]⟩ : PDFStorage) "a").2 = true
        ↔ (getDocument (⟨[]⟩ : PDFStorage) "a").isSome) :=
  C7_storage_roundtrip ⟨[]⟩ "a" "f" [] 0

/-- C1: the orchestrator returns the absent sentinel (`none`) rather
than raising when the document id is unknown, when the stored document
has zero chunks, and when the embedding provider fails. -/
theorem C1_getRAGContext_absent (store : PDFStorage)
    (embedProvider : String → Except EmbedError (List ℝ))
    (query documentId : String) (topK : Int) :
    (getDocument store documentId = none →
      getRAGContext store embedProvider query documentId topK = none)
    ∧ (∀ doc, getDocument store documentId = some doc → doc.chunks = [] →
        getRAGContext store embedProvider query documentId topK = none)
    ∧ (∀ e, embedProvider query = Except.error e →
        getRAGContext store embedProvider query documentId topK = none) := by
  refine ⟨?_, ?_, ?_⟩
  · intro h
    rw [getRAGContext, h]
  · intro doc h hc
    rw [getRAGContext, h]
    simp [hc]
  · intro e he
    rw [getRAGContext]
    cases hd : getDocument store documentId with
    | none => rfl
    | some doc =>
      by_cases hc : doc.chunks.length = 0
      · simp [hc]
      · simp only [if_neg hc]
        rw [he]

/-- C1 witness: absent document at the empty store, and a failing
provider against a stored one-chunk document, both give `none`. -/
theorem C1_witness :
    getRAGContext (⟨[]⟩ : PDFStorage)
        (fun _ => Except.error EmbedError.providerFailure) "q" "d" 3 = none
    ∧ getRAGContext (⟨[("d", ⟨"d", "f.pdf", [⟨"c", "t", [1]⟩], 0⟩)]⟩ : PDFStorage)
        (fun _ => Except.error EmbedError.providerFailure) "q" "d" 3 = none :=
  ⟨(C1_getRAGContext_absent ⟨[]⟩ _ "q" "d" 3).1 rfl,
   (C1_getRAGContext_absent ⟨[("d", ⟨"d", "f.pdf", [⟨"c", "t", [1]⟩], 0⟩)]⟩ _
      "q" "d" 3).2.2 EmbedError.providerFailure rfl⟩

theorem simLE_trans (a b c : SimilarChunk) (h1 : simLE a b) (h2 : simLE b c) :
    simLE a c := by
  simp only [simLE, decide_eq_true_eq] at h1 h2 ⊢
  exact h2.trans h1

theorem simLE_total (a b : SimilarChunk) : simLE a b || simLE b a := by
  simp only [simLE, Bool.or_eq_true, decide_eq_true_eq]
  exact le_total b.similarity a.similarity

theorem mapExcept_ok_length (f : α → Except ε β) (l : List α) (bs : List β)
    (h : mapExcept f l = Except.ok bs) : bs.length = l.length := by
  induction l generalizing bs with
  | nil =>
    simp only [mapExcept] at h
    cases h
    rfl
  | cons a t ih =>
    simp only [mapExcept] at h
    cases hf : f a with
    | error e => rw [hf] at h; exact Except.noConfusion h
    | ok b =>
      rw [hf] at h
      cases ht : mapExcept f t with
      | error e => rw [ht] at h; exact Except.noConfusion h
      | ok bs2 =>
        rw [ht] at h
        simp only [Except.map] at h
        cases h
        simp [ih bs2 ht]

theorem mapExcept_ok_map (f : α → Except ε β) (g : β → γ) (g2 : α → γ)
    (hfg : ∀ a b, f a = Except.ok b → g b = g2 a) (l : List α) (bs : List β)
    (h : mapExcept f l = Except.ok bs) : bs.map g = l.map g2 := by
  induction l generalizing bs with
  | nil =>
    simp only [mapExcept] at h
    cases h
    rfl
  | cons a t ih =>
    simp only [mapExcept] at h
    cases hf : f a with
    | error e => rw [hf] at h; exact Except.noConfusion h
    | ok b =>
      rw [hf] at h
      cases ht : mapExcept f t with
      | error e => rw [ht] at h; exact Except.noConfusion h
      | ok bs2 =>
        rw [ht] at h
        simp only [Except.map] at h
        cases h
        simp [hfg a b hf, ih bs2 ht]

/-- C4: on success with a non-negative `topK`, `findSimilarChunks`
returns a descending-similarity sequence; ties keep the original chunk
order (the filtered run at each similarity value is a prefix of the
corresponding run of the unsorted score list, which is in chunk order);
the length is at most `topK` and at most the number of chunks. -/
theorem C4_findSimilarChunks_sorted (q : List ℝ) (chunks : List PDFChunk)
    (topK : Int) (res : List SimilarChunk) (htopK : 0 ≤ topK)
    (hres : findSimilarChunks q chunks topK = Except.ok res) :
    res.Pairwise (fun a b => b.similarity ≤ a.similarity)
    ∧ (∃ sims, mapExcept (simOf q) chunks = Except.ok sims
        ∧ sims.map (fun s => (s.id, s.text)) = chunks.map (fun c => (c.id, c.text))
        ∧ ∀ c : ℝ, res.filter (fun x => decide (x.similarity = c))
            <+: sims.filter (fun x => decide (x.similarity = c)))
    ∧ (res.length : Int) ≤ topK ∧ res.length ≤ chunks.length := by
  rw [findSimilarChunks] at hres
  cases hm : mapExcept (simOf q) chunks with
  | error e => rw [hm] at hres; exact Except.noConfusion hres
  | ok sims =>
    rw [hm] at hres
    simp only [Except.map] at hres
    rw [Except.ok.injEq] at hres
    have hsorted := List.sorted_mergeSort simLE_trans simLE_total sims
    have hres2 : res = (sims.mergeSort simLE).take topK.toNat := by
      rw [← hres, jsSlice, if_neg (by omega)]
    refine ⟨?_, ⟨sims, rfl, ?_, ?_⟩, ?_, ?_⟩
    · rw [hres2]
      refine (List.Pairwise.sublist (List.take_sublist _ _) hsorted).imp ?_
      intro a b hab
      simpa [simLE, decide_eq_true_eq] using hab
    · exact mapExcept_ok_map _ _ _ (by
        intro a b hab
        simp only [simOf] at hab
        cases hc : cosineSimilarity q a.embedding with
        | error e => rw [hc] at hab; exact Except.noConfusion hab
        | ok s =>
          rw [hc] at hab
          simp only [Except.map] at hab
          cases hab
          rfl) chunks sims hm
    · intro c
      have hpw : (sims.filter (fun x => decide (x.similarity = c))).Pairwise
          (fun a b => simLE a b = true) := by
        apply List.pairwise_of_forall_mem_list
        intro a ha b hb
        have ha2 := (List.mem_filter.mp ha).2
        have hb2 := (List.mem_filter.mp hb).2
        simp only [decide_eq_true_eq] at ha2 hb2
        simp [simLE, ha2, hb2]
      have hstable : List.Sublist (sims.filter (fun x => decide (x.similarity = c)))
          ((sims.mergeSort simLE).filter (fun x => decide (x.similarity = c))) := by
        have h1 : List.Sublist (sims.filter (fun x => decide (x.similarity = c)))
            (sims.mergeSort simLE) :=
          List.sublist_mergeSort simLE_trans simLE_total hpw (List.filter_sublist sims)
        have h2 := h1.filter (fun x => decide (x.similarity = c))
        have h3 : (fun a : SimilarChunk =>
              decide (a.similarity = c) && decide (a.similarity = c))
            = fun a : SimilarChunk => decide (a.similarity = c) := by
          funext a
          exact Bool.and_self _
        rwa [List.filter_filter, h3] at h2
      have hperm : ((sims.mergeSort simLE).filter
          (fun x => decide (x.similarity = c))).Perm
            (sims.filter (fun x => decide (x.similarity = c))) :=
        (List.mergeSort_perm sims simLE).filter _
      have heq : sims.filter (fun x => decide (x.similarity = c))
          = (sims.mergeSort simLE).filter (fun x => decide (x.similarity = c)) :=
        hstable.eq_of_length hperm.length_eq.symm
      rw [hres2, heq]
      exact List.isPrefix_filter_iff.mpr
        ⟨(sims.mergeSort simLE).take topK.toNat, List.take_prefix _ _, rfl⟩
    · rw [hres2]
      have := List.length_take_le topK.toNat (sims.mergeSort simLE)
      omega
    · rw [hres2]
      have h1 := List.length_take_le' topK.toNat (sims.mergeSort simLE)
      have h2 : (sims.mergeSort simLE).length = sims.length :=
        List.length_mergeSort sims
      have h3 := mapExcept_ok_length _ _ _ hm
      omega

/-- Concrete run: one chunk, `topK = 3`. -/
theorem fsc_single_eval :
    findSimilarChunks [(1 : ℝ)] [⟨"a", "t", [(1 : ℝ)]⟩] 3
      = Except.ok [⟨"a", "t", (1 : ℝ)⟩] := by
  have hmap : mapExcept (simOf [(1 : ℝ)]) [⟨"a", "t", [(1 : ℝ)]⟩]
      = Except.ok [⟨"a", "t", (1 : ℝ)⟩] := by
    simp [mapExcept, simOf, cosSim_single_one, Except.map]
  rw [findSimilarChunks, hmap]
  simp only [Except.map, List.mergeSort_singleton]
  rw [jsSlice, if_neg (by omega)]
  rfl

/-- C4 witness at the concrete one-chunk run. -/
theorem C4_witness :
    (0 : Int) ≤ 3
    ∧ (([⟨"a", "t", (1 : ℝ)⟩] : List SimilarChunk).Pairwise
        (fun a b => b.similarity ≤ a.similarity)
      ∧ (∃ sims, mapExcept (simOf [(1 : ℝ)]) [⟨"a", "t", [(1 : ℝ)]⟩] = Except.ok sims
          ∧ sims.map (fun s => (s.id, s.text))
              = ([⟨"a", "t", [(1 : ℝ)]⟩] : List PDFChunk).map (fun c => (c.id, c.text))
          ∧ ∀ c : ℝ, ([⟨"a", "t", (1 : ℝ)⟩] : List SimilarChunk).filter
                (fun x => decide (x.similarity = c))
              <+: sims.filter (fun x => decide (x.similarity = c)))
      ∧ (([⟨"a", "t", (1 : ℝ)⟩] : List SimilarChunk).length : Int) ≤ 3
      ∧ ([⟨"a", "t", (1 : ℝ)⟩] : List SimilarChunk).length
          ≤ ([⟨"a", "t", [(1 : ℝ)]⟩] : List PDFChunk).length) :=
  ⟨by norm_num,
   C4_findSimilarChunks_sorted [(1 : ℝ)] [⟨"a", "t", [(1 : ℝ)]⟩] 3
     [⟨"a", "t", (1 : ℝ)⟩] (by norm_num) fsc_single_eval⟩

/-- C2 (amended): under the orchestrator's `min(topK, 10)` clamp,
`topK = 0` yields the empty result, but a negative `topK` is NOT
clamped to `0`: it reaches `slice(0, topK)`, which counts from the end
of the array, keeping the first `max(len + topK, 0)` ranked entries
(possibly non-empty). The clamp bounds the effective `topK` above by
`10` only. -/
theorem C2_amended_topK_clamp (q : List ℝ) (chunks : List PDFChunk)
    (topK : Int) (res : List SimilarChunk)
    (hres : findSimilarChunks q chunks (min topK 10) = Except.ok res) :
    (topK = 0 → res = [])
    ∧ (topK < 0 → res.length = ((chunks.length : Int) + topK).toNat) := by
  rw [findSimilarChunks] at hres
  cases hm : mapExcept (simOf q) chunks with
  | error e => rw [hm] at hres; exact Except.noConfusion hres
  | ok sims =>
    rw [hm] at hres
    simp only [Except.map] at hres
    rw [Except.ok.injEq] at hres
    have hlen : (sims.mergeSort simLE).length = chunks.length := by
      rw [List.length_mergeSort]
      exact mapExcept_ok_length _ _ _ hm
    constructor
    · intro h0
      subst h0
      rw [← hres, jsSlice]
      have hmin : min (0 : Int) 10 = 0 := by norm_num
      rw [hmin, if_neg (by omega)]
      simp
    · intro hneg
      have hmin : min topK 10 = topK := min_eq_left (by omega)
      rw [← hres, jsSlice, hmin, if_pos hneg, List.length_take, hlen]
      omega

/-- C2 counterexample: with two stored chunks and `topK = -1`, the
orchestrator-clamped call returns a ONE-element list, not the empty
sequence: `min(-1, 10) = -1` and `slice(0, -1)` drops only the last
entry. -/
theorem C2_counterexample :
    findSimilarChunks [(1 : ℝ)] [⟨"a", "x", [(1 : ℝ)]⟩, ⟨"b", "y", [(1 : ℝ)]⟩]
      (min (-1) 10) ≠ Except.ok [] := by
  intro h
  have hmap : mapExcept (simOf [(1 : ℝ)]) [⟨"a", "x", [(1 : ℝ)]⟩, ⟨"b", "y", [(1 : ℝ)]⟩]
      = Except.ok [⟨"a", "x", (1 : ℝ)⟩, ⟨"b", "y", (1 : ℝ)⟩] := by
    simp [mapExcept, simOf, cosSim_single_one, Except.map]
  rw [findSimilarChunks, hmap] at h
  simp only [Except.map, Except.ok.injEq] at h
  have hlen := congrArg List.length h
  rw [jsSlice] at hlen
  have hmin : min (-1 : Int) 10 = -1 := by norm_num
  rw [hmin, if_pos (by omega), List.length_take, List.length_mergeSort] at hlen
  simp at hlen

/-- C2 witness for the amended claim: `topK = 0` on a one-chunk store
returns the empty sequence. -/
theorem C2_witness :
    ((0 : Int) = 0 → ([] : List SimilarChunk) = [])
    ∧ ((0 : Int) < 0 → ([] : List SimilarChunk).length
        = ((([⟨"a", "t", [(1 : ℝ)]⟩] : List PDFChunk).length : Int) + 0).toNat) :=
  C2_amended_topK_clamp [(1 : ℝ)] [⟨"a", "t", [(1 : ℝ)]⟩] 0 []
    (by
      have hmin : min (0 : Int) 10 = 0 := by norm_num
      have hmap : mapExcept (simOf [(1 : ℝ)]) [⟨"a", "t", [(1 : ℝ)]⟩]
          = Except.ok [⟨"a", "t", (1 : ℝ)⟩] := by
        simp [mapExcept, simOf, cosSim_single_one, Except.map]
      rw [hmin, findSimilarChunks, hmap]
      simp only [Except.map, List.mergeSort_singleton]
      rw [jsSlice, if_neg (by omega)]
      rfl)

/-- C8: `formatRAGContext` returns the empty string exactly for an
absent context or an empty `relevantChunks` list; otherwise its output
contains the source filename and the chunk texts in ranked order
separated by blank lines; and it is deterministic. -/
theorem C8_formatRAGContext (ctx : Option RAGContext) :
    (formatRAGContext ctx = "" ↔
      (ctx = none ∨ ∃ c, ctx = some c ∧ c.relevantChunks = []))
    ∧ (∀ c, ctx = some c → c.relevantChunks ≠ [] →
        c.filename.data <:+: (formatRAGContext ctx).data
        ∧ (String.intercalate "\n\n" (c.relevantChunks.map (fun x => x.1))).data
            <:+: (formatRAGContext ctx).data)
    ∧ ∀ ctx2, ctx = ctx2 → formatRAGContext ctx = formatRAGContext ctx2 := by
  refine ⟨?_, ?_, fun ctx2 h => by rw [h]⟩
  · cases ctx with
    | none => simp [formatRAGContext]
    | some c =>
      simp only [formatRAGContext]
      by_cases hc : c.relevantChunks.length = 0
      · rw [if_pos hc]
        constructor
        · intro _
          exact Or.inr ⟨c, rfl, List.length_eq_zero.mp hc⟩
        · intro _
          rfl
      · rw [if_neg hc]
        constructor
        · intro h
          exfalso
          have hdata := congrArg String.data h
          simp only [String.data_append, List.append_assoc] at hdata
          rw [List.append_eq_nil] at hdata
          exact absurd hdata.1 (by decide)
        · rintro (h | ⟨c2, hc2, hrel⟩)
          · exact absurd h (by simp)
          · exfalso
            apply hc
            rw [Option.some.injEq] at hc2
            rw [← hc2] at hrel
            simp [hrel]
  · intro c hctx hrel
    subst hctx
    have hlen : ¬c.relevantChunks.length = 0 := by
      simpa [List.length_eq_zero] using hrel
    simp only [formatRAGContext, if_neg hlen]
    constructor
    · refine ⟨("Use the following PDF context (from \"" : String).data,
        (("\") to answer the user's question accurately:\n\n<pdf_context>\n" : String)
          ++ String.intercalate "\n\n" (c.relevantChunks.map (fun x => x.1))
          ++ "\n</pdf_context>\n\n").data, ?_⟩
      simp [String.data_append, List.append_assoc]
    · refine ⟨(("Use the following PDF context (from \"" : String) ++ c.filename
          ++ "\") to answer the user's question accurately:\n\n<pdf_context>\n").data,
        ("\n</pdf_context>\n\n" : String).data, ?_⟩
      simp [String.data_append, List.append_assoc]

/-- C8 witness at a concrete context with filename `x.pdf` and single
chunk text `hello`. -/
theorem C8_witness :
    ("x.pdf" : String).data <:+:
      (formatRAGContext (some ⟨"d", "x.pdf", [("hello", (0 : ℝ))]⟩)).data
    ∧ ("hello" : String).data <:+:
      (formatRAGContext (some ⟨"d", "x.pdf", [("hello", (0 : ℝ))]⟩)).data := by
  have h := (C8_formatRAGContext (some ⟨"d", "x.pdf", [("hello", (0 : ℝ))]⟩)).2.1
    ⟨"d", "x.pdf", [("hello", (0 : ℝ))]⟩ rfl (by simp)
  refine ⟨h.1, ?_⟩
  have he : String.intercalate "\n\n"
      (([("hello", (0 : ℝ))] : List (String × ℝ)).map (fun x => x.1)) = "hello" := rfl
  rw [he] at h
  exact h.2

theorem joinWords_cons₂ (w x : List Char) (xs : List (List Char)) :
    joinWords (w :: x :: xs) = w ++ ' ' :: joinWords (x :: xs) := rfl

theorem joinWords_append (xs : List (List Char)) : ∀ ys, xs ≠ [] → ys ≠ [] →
    joinWords (xs ++ ys) = joinWords xs ++ ' ' :: joinWords ys := by
  induction xs with
  | nil =>
    intro ys hx _
    exact absurd rfl hx
  | cons w xs ih =>
    intro ys _ hy
    cases xs with
    | nil =>
      cases ys with
      | nil => exact absurd rfl hy
      | cons y t =>
        simp only [List.nil_append, List.cons_append]
        rw [joinWords_cons₂]
        rfl
    | cons x xs2 =>
      simp only [List.cons_append]
      rw [joinWords_cons₂]
      rw [show (x :: (xs2 ++ ys)) = (x :: xs2) ++ ys from rfl]
      rw [ih ys (by simp) hy, joinWords_cons₂]
      simp [List.append_assoc]

theorem joinWords_glue (xs cw ys : List (List Char)) (hcw : cw ≠ []) :
    joinWords (xs ++ [joinWords cw] ++ ys) = joinWords (xs ++ cw ++ ys) := by
  by_cases hx : xs = []
  · subst hx
    by_cases hy : ys = []
    · subst hy
      simp only [List.nil_append, List.append_nil]
      rfl
    · simp only [List.nil_append]
      rw [joinWords_append [joinWords cw] ys (by simp) hy,
        joinWords_append cw ys hcw hy]
      rfl
  · by_cases hy : ys = []
    · subst hy
      simp only [List.append_nil]
      rw [joinWords_append xs [joinWords cw] hx (by simp),
        joinWords_append xs cw hx hcw]
      rfl
    · rw [List.append_assoc, List.append_assoc,
        joinWords_append xs ([joinWords cw] ++ ys) hx (by simp),
        joinWords_append xs (cw ++ ys) hx (by simp [hcw]),
        joinWords_append [joinWords cw] ys (by simp) hy,
        joinWords_append cw ys hcw hy]
      rfl

theorem joinWords_ne_nil (cw : List (List Char)) (hne : cw ≠ [])
    (hw : ∀ w ∈ cw, isWord w) : joinWords cw ≠ [] := by
  cases cw with
  | nil => exact absurd rfl hne
  | cons w rest =>
    cases rest with
    | nil => exact (hw w (by simp)).1
    | cons x xs =>
      rw [joinWords_cons₂]
      intro hcontra
      exact List.cons_ne_nil _ _ (List.append_eq_nil.mp hcontra).2

theorem joinWords_head (cw : List (List Char)) (hne : cw ≠ [])
    (hw : ∀ w ∈ cw, isWord w) :
    ∃ c cs, joinWords cw = c :: cs ∧ ws c = false := by
  cases cw with
  | nil => exact absurd rfl hne
  | cons w rest =>
    obtain ⟨hwne, hwc⟩ := hw w (by simp)
    obtain ⟨c, w2, rfl⟩ := List.exists_cons_of_ne_nil hwne
    cases rest with
    | nil => exact ⟨c, w2, rfl, hwc c (by simp)⟩
    | cons x xs =>
      rw [joinWords_cons₂]
      exact ⟨c, w2 ++ ' ' :: joinWords (x :: xs), rfl, hwc c (by simp)⟩

theorem joinWords_getLast (cw : List (List Char)) (hne : cw ≠ [])
    (hw : ∀ w ∈ cw, isWord w) :
    ∃ a, (joinWords cw).getLast? = some a ∧ ws a = false := by
  induction cw with
  | nil => exact absurd rfl hne
  | cons w rest ih =>
    cases rest with
    | nil =>
      obtain ⟨hwne, hwc⟩ := hw w (by simp)
      refine ⟨w.getLast hwne, ?_, hwc _ (List.getLast_mem hwne)⟩
      show w.getLast? = some (w.getLast hwne)
      exact List.getLast?_eq_getLast w hwne
    | cons x xs =>
      obtain ⟨a, ha, haw⟩ := ih (by simp) (by
        intro u hu
        exact hw u (by simp [hu]))
      refine ⟨a, ?_, haw⟩
      rw [joinWords_cons₂, List.getLast?_append]
      have hJ : (joinWords (x :: xs)).getLast? = some a := ha
      rw [show (' ' :: joinWords (x :: xs)) = [' '] ++ joinWords (x :: xs) from rfl,
        List.getLast?_append, hJ]
      rfl

theorem trimLeft_eq_self (l : List Char)
    (h : ∀ a, l.head? = some a → ws a = false) : trimLeft l = l := by
  cases l with
  | nil => rfl
  | cons c cs =>
    rw [trimLeft, List.dropWhile_cons, if_neg]
    rw [h c rfl]
    simp

theorem trimRight_eq_self (l : List Char)
    (h : ∀ a, l.getLast? = some a → ws a = false) : trimRight l = l := by
  rw [trimRight]
  have : l.reverse.dropWhile ws = l.reverse := by
    apply trimLeft_eq_self l.reverse
    intro a ha
    rw [List.head?_reverse] at ha
    exact h a ha
  rw [this, List.reverse_reverse]

theorem trim_joinWords (cw : List (List Char)) (hne : cw ≠ [])
    (hw : ∀ w ∈ cw, isWord w) : trim (joinWords cw) = joinWords cw := by
  rw [trim]
  rw [trimRight_eq_self _ (by
    intro a ha
    obtain ⟨b, hb, hbw⟩ := joinWords_getLast cw hne hw
    rw [hb] at ha
    cases ha
    exact hbw)]
  exact trimLeft_eq_self _ (by
    intro a ha
    obtain ⟨c, cs, hc, hcw⟩ := joinWords_head cw hne hw
    rw [hc] at ha
    cases ha
    exact hcw)

theorem trimRight_append_space (l : List Char) :
    trimRight (l ++ [' ']) = trimRight l := by
  rw [trimRight, trimRight, List.reverse_append]
  show ((' ' :: l.reverse).dropWhile ws).reverse = _
  rw [List.dropWhile_cons, if_pos (by decide)]

theorem trim_append_space (l : List Char) : trim (l ++ [' ']) = trim l := by
  rw [trim, trim, trimRight_append_space]

theorem wordsRuns_words (s : List Char) : ∀ w ∈ wordsRuns s, isWord w := by
  induction s using wordsRuns.induct with
  | case1 =>
    intro w hw
    simp [wordsRuns] at hw
  | case2 c cs hws ih =>
    intro w hw
    rw [wordsRuns, if_pos hws] at hw
    exact ih w hw
  | case3 c cs hws ih =>
    intro w hw
    rw [wordsRuns, if_neg hws] at hw
    rcases List.mem_cons.mp hw with h | h
    · subst h
      refine ⟨by simp, ?_⟩
      intro x hx
      rcases List.mem_cons.mp hx with h | h
      · subst h
        simpa using hws
      · have := List.mem_takeWhile_imp h
        simpa using this
    · exact ih w h

theorem wordsRuns_all_ws (s : List Char) (h : ∀ c ∈ s, ws c = true) :
    wordsRuns s = [] := by
  induction s using wordsRuns.induct with
  | case1 => rw [wordsRuns]
  | case2 c cs hws ih =>
    rw [wordsRuns, if_pos hws]
    exact ih (by
      intro x hx
      exact h x (by simp [hx]))
  | case3 c cs hws ih =>
    exact absurd (h c (by simp)) (by simpa using hws)

theorem chunkStep_nil_nil (mx : Int) : chunkStep mx ([], []) [] = ([], []) := by
  rw [chunkStep, if_neg]
  · rfl
  · rintro ⟨-, h2⟩
    simp at h2

theorem chunkStep_nil_word (mx : Int) (st : List (List Char) × List Char) :
    finalChunks (chunkStep mx st []) = finalChunks st := by
  rw [chunkStep]
  by_cases h : ((st.2.length : Int) + ([] : List Char).length + 1 > mx ∧ st.2.length > 0)
  · rw [if_pos h]
    rw [finalChunks, finalChunks]
    rw [if_neg (by simp), if_pos h.2]
  · rw [if_neg h]
    by_cases h2 : st.2.length > 0
    · rw [finalChunks, finalChunks]
      simp only [if_pos h2]
      rw [if_pos (by simpa using h2), trim_append_space]
    · have hnil : st.2 = [] := by
        simpa [List.length_pos] using h2
      rw [finalChunks, finalChunks, if_neg h2, hnil]
      simp

theorem chunkFold_spec (mx : Int) (wl : List (List Char)) :
    ∀ (chunks cw : List (List Char)),
      (∀ w ∈ wl, isWord w) → (∀ w ∈ cw, isWord w) →
      (∀ ch ∈ chunks, ch ≠ [] ∧ ((ch.length : Int) ≤ mx ∨ ∀ x ∈ ch, ws x = false)) →
      (cw = [] ∨ (∃ u, cw = [u]) ∨ ((joinWords cw).length : Int) ≤ mx) →
      (∀ ch ∈ finalChunks (List.foldl (chunkStep mx) (chunks, joinWords cw) wl),
          ch ≠ [] ∧ ((ch.length : Int) ≤ mx ∨ ∀ x ∈ ch, ws x = false))
      ∧ joinWords (finalChunks (List.foldl (chunkStep mx) (chunks, joinWords cw) wl))
          = joinWords (chunks ++ cw ++ wl) := by
  induction wl with
  | nil =>
    intro chunks cw _ hcw hchunks hok
    simp only [List.foldl_nil, List.append_nil]
    by_cases hne : cw = []
    · subst hne
      rw [show joinWords ([] : List (List Char)) = [] from rfl]
      rw [finalChunks, if_neg (by simp)]
      exact ⟨hchunks, by simp⟩
    · have hjw := joinWords_ne_nil cw hne hcw
      rw [finalChunks]
      rw [if_pos (by simpa [List.length_pos] using hjw),
        trim_joinWords cw hne hcw]
      constructor
      · intro ch hch
        rcases List.mem_append.mp hch with h | h
        · exact hchunks ch h
        · rw [List.mem_singleton] at h
          subst h
          refine ⟨hjw, ?_⟩
          rcases hok with h | ⟨u, hu⟩ | h
          · exact absurd h hne
          · subst hu
            refine Or.inr ?_
            intro x hx
            exact (hcw u (by simp)).2 x (by simpa using hx)
          · exact Or.inl h
      · have hglue := joinWords_glue chunks cw [] hne
        simpa using hglue
  | cons w rest ih =>
    intro chunks cw hwl hcw hchunks hok
    have hw : isWord w := hwl w (by simp)
    have hrest : ∀ u ∈ rest, isWord u := fun u hu => hwl u (by simp [hu])
    have hsingle : ∀ u ∈ [w], isWord u := by
      intro u hu
      rw [List.mem_singleton] at hu
      subst hu
      exact hw
    rw [List.foldl_cons]
    by_cases hne : cw = []
    · subst hne
      have hstep : chunkStep mx (chunks, joinWords ([] : List (List Char))) w
          = (chunks, joinWords [w]) := by
        rw [chunkStep, if_neg (by
          rintro ⟨-, h2⟩
          simp [joinWords] at h2)]
        simp [joinWords]
      rw [hstep]
      have hres := ih chunks [w] hrest hsingle hchunks (Or.inr (Or.inl ⟨w, rfl⟩))
      refine ⟨hres.1, ?_⟩
      rw [hres.2]
      simp
    · have hjwne := joinWords_ne_nil cw hne hcw
      have hjwpos : (joinWords cw).length > 0 := by
        simpa [List.length_pos] using hjwne
      by_cases hC : ((joinWords cw).length : Int) + w.length + 1 > mx
      · have hstep : chunkStep mx (chunks, joinWords cw) w
            = (chunks ++ [joinWords cw], joinWords [w]) := by
          rw [chunkStep, if_pos ⟨hC, hjwpos⟩, trim_joinWords cw hne hcw]
          rfl
        rw [hstep]
        have hgood : ∀ ch ∈ chunks ++ [joinWords cw],
            ch ≠ [] ∧ ((ch.length : Int) ≤ mx ∨ ∀ x ∈ ch, ws x = false) := by
          intro ch hch
          rcases List.mem_append.mp hch with h | h
          · exact hchunks ch h
          · rw [List.mem_singleton] at h
            subst h
            refine ⟨hjwne, ?_⟩
            rcases hok with h | ⟨u, hu⟩ | h
            · exact absurd h hne
            · subst hu
              refine Or.inr ?_
              intro x hx
              exact (hcw u (by simp)).2 x (by simpa using hx)
            · exact Or.inl h
        have hres := ih (chunks ++ [joinWords cw]) [w] hrest hsingle hgood
          (Or.inr (Or.inl ⟨w, rfl⟩))
        refine ⟨hres.1, ?_⟩
        rw [hres.2]
        rw [show (chunks ++ [joinWords cw]) ++ [w] ++ rest
            = chunks ++ [joinWords cw] ++ ([w] ++ rest) by simp [List.append_assoc]]
        rw [joinWords_glue chunks cw ([w] ++ rest) hne]
        simp [List.append_assoc]
      · have hstep : chunkStep mx (chunks, joinWords cw) w
            = (chunks, joinWords (cw ++ [w])) := by
          rw [chunkStep, if_neg (by
            rintro ⟨h1, -⟩
            exact hC h1)]
          rw [joinWords_append cw [w] hne (by simp)]
          rw [if_pos hjwpos]
          rfl
        rw [hstep]
        have hlen : ((joinWords (cw ++ [w])).length : Int) ≤ mx := by
          rw [joinWords_append cw [w] hne (by simp)]
          have hC2 : ((joinWords cw).length : Int) + w.length + 1 ≤ mx := by omega
          rw [show joinWords [w] = w from rfl]
          simp only [List.length_append, List.length_cons]
          push_cast
          omega
        have hres := ih chunks (cw ++ [w]) hrest (by
          intro u hu
          rcases List.mem_append.mp hu with h | h
          · exact hcw u h
          · rw [List.mem_singleton] at h
            subst h
            exact hw)
          hchunks (Or.inr (Or.inr hlen))
        refine ⟨hres.1, ?_⟩
        rw [hres.2]
        simp [List.append_assoc]

theorem chunkText_eq_runs (text : List Char) (mn mx : Int) :
    chunkText text mn mx
      = (finalChunks (List.foldl (chunkStep mx) ([], []) (wordsRuns text))).filter
          (fun c => c.length > 0) := by
  simp only [chunkText]
  by_cases he : text.isEmpty
  · have ht : text = [] := List.isEmpty_iff.mp he
    subst ht
    rw [jsSplitWs, if_pos (by simp)]
    rw [show wordsRuns [] = [] from by rw [wordsRuns]]
    simp only [List.foldl_cons, List.foldl_nil]
    rw [chunkStep_nil_nil]
  · rw [jsSplitWs, if_neg (by simpa using he)]
    rw [List.foldl_append, List.foldl_append]
    have hlead : List.foldl (chunkStep mx) ([], [])
        (if ws (text.headD ' ') then [([] : List Char)] else []) = ([], []) := by
      by_cases hh : ws (text.headD ' ')
      · rw [if_pos hh]
        simp only [List.foldl_cons, List.foldl_nil]
        rw [chunkStep_nil_nil]
      · rw [if_neg hh]
        rfl
    rw [hlead]
    by_cases hl : ws (text.getLastD ' ')
    · rw [if_pos hl]
      simp only [List.foldl_cons, List.foldl_nil]
      rw [chunkStep_nil_word]
    · rw [if_neg hl]
      rfl

/-- C3: `chunkText` output, joined with single spaces, reproduces the
whitespace-normalized input; no chunk exceeds `maxChunkSize` except a
single over-long word (a chunk with no whitespace); and empty or
whitespace-only input yields the empty sequence. -/
theorem C3_chunkText_correct (text : List Char) (minChunkSize maxChunkSize : Int) :
    joinWords (chunkText text minChunkSize maxChunkSize) = normalizeWs text
    ∧ (∀ ch ∈ chunkText text minChunkSize maxChunkSize,
        (ch.length : Int) ≤ maxChunkSize ∨ (ch ≠ [] ∧ ∀ x ∈ ch, ws x = false))
    ∧ ((∀ x ∈ text, ws x = true) → chunkText text minChunkSize maxChunkSize = []) := by
  have hmain := chunkFold_spec maxChunkSize (wordsRuns text) [] []
    (wordsRuns_words text) (by simp) (by simp) (Or.inl rfl)
  rw [show joinWords ([] : List (List Char)) = [] from rfl] at hmain
  have hfilter : (finalChunks (List.foldl (chunkStep maxChunkSize) ([], [])
      (wordsRuns text))).filter (fun c => c.length > 0)
      = finalChunks (List.foldl (chunkStep maxChunkSize) ([], []) (wordsRuns text)) := by
    rw [List.filter_eq_self]
    intro a ha
    have := (hmain.1 a ha).1
    simpa [List.length_pos] using this
  refine ⟨?_, ?_, ?_⟩
  · rw [chunkText_eq_runs, hfilter, hmain.2]
    simp [normalizeWs]
  · intro ch hch
    rw [chunkText_eq_runs, hfilter] at hch
    have hg := hmain.1 ch hch
    rcases hg.2 with h | h
    · exact Or.inl h
    · exact Or.inr ⟨hg.1, h⟩
  · intro hws
    rw [chunkText_eq_runs, wordsRuns_all_ws text hws]
    simp only [List.foldl_nil]
    rw [finalChunks, if_neg (by simp)]
    rfl

/-- C3 witness: the concrete text `ab cd` with max size 3 splits and
joins back, and the whitespace-only text gives no chunks. -/
theorem C3_witness :
    joinWords (chunkText ['a', 'b', ' ', 'c', 'd'] 0 3)
        = normalizeWs ['a', 'b', ' ', 'c', 'd']
    ∧ chunkText [' ', ' '] 0 3 = [] :=
  ⟨(C3_chunkText_correct ['a', 'b', ' ', 'c', 'd'] 0 3).1,
   (C3_chunkText_correct [' ', ' '] 0 3).2.2 (by decide)⟩

/-- C9: the output of `chunkText` does not depend on `minChunkSize`:
for every text, every `maxChunkSize` and any two values `m1`, `m2` of
the `minChunkSize` parameter the results coincide (no trailing-chunk
coalescing is performed). -/
theorem C9_chunkText_independent_of_minChunkSize
    (text : List Char) (maxChunkSize m1 m2 : Int) :
    chunkText text m1 maxChunkSize = chunkText text m2 maxChunkSize := rfl

/-- C9 witness at a concrete text and the two `minChunkSize` values
`700` (the default) and `0`. -/
theorem C9_witness :
    chunkText ['a'] 700 900 = chunkText ['a'] 0 900 :=
  C9_chunkText_independent_of_minChunkSize ['a'] 900 700 0

end RAG
